import Mathlib

/-!
Verification of the CIGOL byte-sequence encoder and resonance mapper.

Shallow embedding of the deterministic core of the repository:

* `kernelEncode` — the byte-sequence encoder of `src/KleinBridge_Sync.js`
  (`kernelEncode`): a left fold `dataInt = (dataInt << 8) + byte` over the
  input bytes, starting from 0.
* `normalizedValue` — the reduction `Number(kernelOutput % 101n) / 100`
  of `src/KleinBridge_Sync.js`.
* `calculateTorque` / `brightness` — the trigonometric display scalars of
  `src/KleinBridge_Sync.js` and `src/MasslessTorque_UI.js`.
* `getLatticeNodes` — the torus lattice generator of
  `src/GenomicTactile_Visualizer.js`, together with a state-passing model
  of its lazy cache.
* `calculateStability` — the GC-content computation of
  `src/GenomicTactile_Visualizer.js`.

Machine integers: the JS source uses `BigInt` (arbitrary precision), so the
encoder is embedded over `Nat` with no modular truncation.  The floating
point display formulas are embedded over `ℝ` (for the trigonometric parts)
and `ℚ` (for the exact modulo/division parts).
-/

/-- Bytes are modelled as natural numbers; the encoder itself never needs
the `< 256` bound, it is carried as a hypothesis where a claim requires it. -/
abbrev Byte := Nat

/-- The core loop of `kernelEncode` in `src/KleinBridge_Sync.js`:
`dataInt = (dataInt << 8n) + BigInt(byte)` folded over the bytes in input
order, starting from `0n`.  For the empty input the guard
`if (!dataString) return { .. z: 0n }` and the empty fold agree, so a single
fold models both paths. -/
def kernelEncode (bytes : List Byte) : Nat :=
  bytes.foldl (fun dataInt byte => (dataInt <<< 8) + byte) 0

/-- The encoder as the spec's §4.1 words it: accumulator = accumulator × 256
+ byte.  Used to compare the source's shift-based fold with the spec. -/
def specEncode (bytes : List Byte) : Nat :=
  bytes.foldl (fun acc byte => acc * 256 + byte) 0

theorem kernelEncode_cons (b : Byte) (l : List Byte) :
    kernelEncode (b :: l) = List.foldl (fun a c => (a <<< 8) + c) b l := by
  simp [kernelEncode]

theorem shl8_eq (a : Nat) : a <<< 8 = a * 256 := by
  simp [Nat.shiftLeft_eq]

theorem kernelEncode_eq_specEncode (l : List Byte) :
    kernelEncode l = specEncode l := by
  unfold kernelEncode specEncode
  congr 1
  funext a c
  simp [shl8_eq]

/-- C1: The byte-sequence encoder is the big-endian base-256 fold: for
every finite byte sequence, starting from accumulator 0 it computes
`accumulator = accumulator * 256 + byte` for each byte in input order, and
for the empty sequence the result is exactly 0. -/
theorem C1_kernelEncode_is_base256_fold :
    (∀ l : List Byte,
        kernelEncode l = l.foldl (fun acc byte => acc * 256 + byte) 0) ∧
      kernelEncode [] = 0 := by
  refine ⟨fun l => ?_, rfl⟩
  exact kernelEncode_eq_specEncode l

/-- The base-256 fold with an arbitrary starting accumulator, expressed
through `Nat.ofDigits` on the reversed byte list. -/
theorem specEncode_foldl_eq (l : List Byte) :
    ∀ a : Nat,
      l.foldl (fun acc byte => acc * 256 + byte) a =
        a * 256 ^ l.length + Nat.ofDigits 256 l.reverse := by
  induction l with
  | nil => intro a; simp [Nat.ofDigits_nil]
  | cons b t ih =>
      intro a
      rw [List.foldl_cons, ih (a * 256 + b)]
      rw [List.reverse_cons, Nat.ofDigits_append]
      simp [Nat.ofDigits_cons, Nat.ofDigits_nil, List.length_reverse]
      ring

/-- The encoder is `Nat.ofDigits` base 256 on the reversed byte list
(little-endian digit order). -/
theorem kernelEncode_eq_ofDigits (l : List Byte) :
    kernelEncode l = Nat.ofDigits 256 l.reverse := by
  rw [kernelEncode_eq_specEncode]
  unfold specEncode
  rw [specEncode_foldl_eq l 0]
  simp

/-- Prepending a zero byte does not change the encoding. -/
theorem kernelEncode_cons_zero (l : List Byte) :
    kernelEncode (0 :: l) = kernelEncode l := by
  unfold kernelEncode
  simp

/-- Stripping the leading zero bytes does not change the encoding. -/
theorem kernelEncode_dropWhile_zero (l : List Byte) :
    kernelEncode (l.dropWhile (fun b => b == 0)) = kernelEncode l := by
  induction l with
  | nil => rfl
  | cons b t ih =>
      rw [List.dropWhile_cons]
      by_cases hb : b = 0
      · subst hb
        simpa [kernelEncode_cons_zero] using ih
      · simp [hb]

/-- On byte lists with no leading zero byte, the encoder is injective. -/
theorem kernelEncode_inj_of_no_leading_zero (l1 l2 : List Byte)
    (h1 : ∀ b ∈ l1, b < 256) (h2 : ∀ b ∈ l2, b < 256)
    (hz1 : ∀ h : l1 ≠ [], l1.head h ≠ 0)
    (hz2 : ∀ h : l2 ≠ [], l2.head h ≠ 0)
    (he : kernelEncode l1 = kernelEncode l2) : l1 = l2 := by
  rw [kernelEncode_eq_ofDigits, kernelEncode_eq_ofDigits] at he
  have last1 : ∀ h : l1.reverse ≠ [], l1.reverse.getLast h ≠ 0 := by
    intro h
    rw [List.getLast_reverse h]
    exact hz1 _
  have last2 : ∀ h : l2.reverse ≠ [], l2.reverse.getLast h ≠ 0 := by
    intro h
    rw [List.getLast_reverse h]
    exact hz2 _
  have d1 := Nat.digits_ofDigits 256 (by norm_num) l1.reverse
    (fun x hx => h1 x (by simpa using hx)) last1
  have d2 := Nat.digits_ofDigits 256 (by norm_num) l2.reverse
    (fun x hx => h2 x (by simpa using hx)) last2
  have hrev : l1.reverse = l2.reverse := by rw [← d1, ← d2, he]
  exact List.reverse_injective hrev

/-- C2: The encoder is injective up to leading zero bytes: any two byte
sequences that still differ after stripping their leading zero bytes encode
to distinct integers, while sequences differing only by leading zero bytes
collide — in particular `encode [0x00, 0x41] = encode [0x41] = 65`. -/
theorem C2_kernelEncode_injective_up_to_leading_zeros (l1 l2 : List Byte)
    (h1 : ∀ b ∈ l1, b < 256) (h2 : ∀ b ∈ l2, b < 256)
    (hne : l1.dropWhile (fun b => b == 0) ≠ l2.dropWhile (fun b => b == 0)) :
    kernelEncode l1 ≠ kernelEncode l2 ∧
      kernelEncode [0x00, 0x41] = kernelEncode [0x41] ∧
      kernelEncode [0x41] = 65 := by
  refine ⟨fun he => ?_, by decide, by decide⟩
  apply hne
  apply kernelEncode_inj_of_no_leading_zero
  · intro b hb
    exact h1 b ((List.dropWhile_sublist _).mem hb)
  · intro b hb
    exact h2 b ((List.dropWhile_sublist _).mem hb)
  · intro h
    have := List.head_dropWhile_not (fun b => b == 0) l1 h
    simpa using this
  · intro h
    have := List.head_dropWhile_not (fun b => b == 0) l2 h
    simpa using this
  · rw [kernelEncode_dropWhile_zero, kernelEncode_dropWhile_zero]
    exact he

/-- Witness for C2 at the concrete byte lists `[1]` and `[2]`. -/
theorem C2_kernelEncode_injective_up_to_leading_zeros_witness :
    kernelEncode [1] ≠ kernelEncode [2] ∧
      kernelEncode [0x00, 0x41] = kernelEncode [0x41] ∧
      kernelEncode [0x41] = 65 :=
  C2_kernelEncode_injective_up_to_leading_zeros [1] [2]
    (by decide) (by decide) (by decide)

/-- C8: Appending a zero byte multiplies the encoding by 256: for every
byte sequence `b`, `encode (b ++ [0x00]) = encode b * 256`, and in
particular `encode [0x01, 0x00] = encode [0x01] * 256`. -/
theorem C8_kernelEncode_append_zero :
    (∀ b : List Byte, kernelEncode (b ++ [0x00]) = kernelEncode b * 256) ∧
      kernelEncode [0x01, 0x00] = kernelEncode [0x01] * 256 := by
  constructor
  · intro b
    unfold kernelEncode
    rw [List.foldl_append]
    simp [Nat.shiftLeft_eq]
  · decide

/-- The reduction `Number(kernelOutput % 101n) / 100` of
`src/KleinBridge_Sync.js`, embedded exactly over `ℚ` (the modulo is taken
on the arbitrary-precision integer before any division). -/
def normalizedValue (kernelOutput : Nat) : ℚ :=
  ((kernelOutput % 101 : Nat) : ℚ) / 100

/-- C3 counterexample: at `value = 100`, the normalized scalar equals
`(100 mod 101) / 100 = 1`, so it is not strictly less than 1: the interval
`[0, 1)` claimed by the spec is wrong at this input. -/
theorem C3_normalizedValue_eq_one_at_100 :
    normalizedValue 100 = 1 ∧ ¬ normalizedValue 100 < 1 := by
  constructor
  · norm_num [normalizedValue]
  · norm_num [normalizedValue]

/-- C3 amended: for every non-negative `EncodedValue`, the normalized
scalar `(value mod 101) / 100` lies in the closed interval `[0, 1]` (the
value 1 is attained, at any input congruent to 100 mod 101). -/
theorem C3_normalizedValue_mem_unit_interval (v : Nat) :
    0 ≤ normalizedValue v ∧ normalizedValue v ≤ 1 := by
  unfold normalizedValue
  constructor
  · positivity
  · rw [div_le_one (by norm_num)]
    have h : v % 101 < 101 := Nat.mod_lt _ (by norm_num)
    have : ((v % 101 : Nat) : ℚ) ≤ 100 := by
      exact_mod_cast Nat.le_of_lt_succ h
    linarith

/-- The constant `GOLDEN_RATIO = 1.61803398875` of `src/KleinBridge_Sync.js`
and `src/MasslessTorque_UI.js` (the JS literal, an exact decimal). -/
noncomputable def goldenRatioConst : ℝ := 1.61803398875

/-- `calculateTorque` of `src/KleinBridge_Sync.js` (the numeric value before
the two-decimal display formatting):
`Math.abs(Math.cos(normalizedValue * Math.PI * GOLDEN_RATIO)) * 100`. -/
noncomputable def calculateTorque (normalized : ℝ) : ℝ :=
  |Real.cos (normalized * Real.pi * goldenRatioConst)| * 100

/-- The brightness formula of the `dynamicStyles` memo in
`src/KleinBridge_Sync.js` / `src/MasslessTorque_UI.js`:
`0.9 + 0.1 * Math.abs(Math.sin(normalizedValue * Math.PI * GOLDEN_RATIO))`. -/
noncomputable def brightness (normalized : ℝ) : ℝ :=
  0.9 + 0.1 * |Real.sin (normalized * Real.pi * goldenRatioConst)|

/-- C4: for every normalized input in `[0, 1]`, the display scalars are
bounded: `torque = |cos(normalized·π·φ)|·100 ∈ [0, 100]` and
`brightness = 0.9 + 0.1·|sin(normalized·π·φ)| ∈ [0.9, 1.0]`. -/
theorem C4_torque_brightness_bounded (x : ℝ) (h0 : 0 ≤ x) (h1 : x ≤ 1) :
    (0 ≤ calculateTorque x ∧ calculateTorque x ≤ 100) ∧
      (0.9 ≤ brightness x ∧ brightness x ≤ 1) := by
  have hcos := Real.abs_cos_le_one (x * Real.pi * goldenRatioConst)
  have hsin := Real.abs_sin_le_one (x * Real.pi * goldenRatioConst)
  have hcos0 : 0 ≤ |Real.cos (x * Real.pi * goldenRatioConst)| := abs_nonneg _
  have hsin0 : 0 ≤ |Real.sin (x * Real.pi * goldenRatioConst)| := abs_nonneg _
  unfold calculateTorque brightness
  refine ⟨⟨by positivity, ?_⟩, ⟨by nlinarith, by nlinarith⟩⟩
  nlinarith

/-- Witness for C4 at the concrete normalized input `0`. -/
theorem C4_torque_brightness_bounded_witness :
    (0 : ℝ) ≤ 0 ∧ (0 : ℝ) ≤ 1 ∧
      ((0 ≤ calculateTorque 0 ∧ calculateTorque 0 ≤ 100) ∧
        (0.9 ≤ brightness 0 ∧ brightness 0 ≤ 1)) :=
  ⟨le_refl 0, zero_le_one, C4_torque_brightness_bounded 0 (le_refl 0) zero_le_one⟩

/-- A 3D lattice node `{ x, y, z }` as pushed by `getLatticeNodes` in
`src/GenomicTactile_Visualizer.js`. -/
structure LatticeNode where
  x : ℝ
  y : ℝ
  z : ℝ

/-- The body of one iteration of the nested loops of `getLatticeNodes`
(`src/GenomicTactile_Visualizer.js`): R = 21, r = 13,
`theta = 2π·(i/100)`, `phi = 2π·(j/9)`, torus parametrization. -/
noncomputable def latticeNode (i j : Nat) : LatticeNode :=
  let R : ℝ := 21
  let r : ℝ := 13
  let theta : ℝ := 2 * Real.pi * ((i : ℝ) / 100)
  let phi : ℝ := 2 * Real.pi * ((j : ℝ) / 9)
  { x := (R + r * Real.cos theta) * Real.cos phi
    y := (R + r * Real.cos theta) * Real.sin phi
    z := r * Real.sin theta }

/-- The pure node list built by the nested loops of `getLatticeNodes`:
`for (i = 0; i < 101; i++) for (j = 0; j < 10; j++) nodes.push(...)`,
i outer, j inner, row-major. -/
noncomputable def getLatticeNodes : List LatticeNode :=
  (List.range 101).flatMap fun i => (List.range 10).map fun j => latticeNode i j

/-- Length of a row-major double loop: `m` outer iterations of `n` inner
iterations yield `m * n` elements. -/
theorem range_flatMap_length {α : Type} (n : Nat) (f : Nat → Nat → α) :
    ∀ m : Nat,
      ((List.range m).flatMap fun i => (List.range n).map (f i)).length = m * n := by
  intro m
  induction m with
  | zero => simp
  | succ k ih =>
      rw [List.range_succ, List.flatMap_append, List.length_append, ih]
      simp [Nat.succ_mul]

/-- Element `i * n + j` of a row-major double loop is the body evaluated at
`(i, j)`. -/
theorem range_flatMap_getElem {α : Type} (n : Nat) (f : Nat → Nat → α) :
    ∀ m i j : Nat, i < m → j < n →
      ((List.range m).flatMap fun i => (List.range n).map (f i))[i * n + j]? =
        some (f i j) := by
  intro m
  induction m with
  | zero => intro i j hi _; exact absurd hi (Nat.not_lt_zero i)
  | succ k ih =>
      intro i j hi hj
      rw [List.range_succ, List.flatMap_append, List.getElem?_append]
      rw [range_flatMap_length n f k]
      by_cases hik : i < k
      · have hlt : i * n + j < k * n := by
          calc i * n + j < i * n + n := by omega
            _ = (i + 1) * n := by ring
            _ ≤ k * n := Nat.mul_le_mul_right n hik
        rw [if_pos hlt]
        exact ih i j hik hj
      · have hik' : i = k := by omega
        subst hik'
        have hge : ¬ i * n + j < i * n := by omega
        rw [if_neg hge]
        have hsub : i * n + j - i * n = j := by omega
        rw [hsub]
        simp [List.getElem?_map, List.getElem?_range hj]

/-- C5: the lattice generator produces exactly 1010 points (101 × 10) in
row-major order, i outer over [0,100], j inner over [0,9]; the point at
index `10·i + j` is the standard torus parametrization with R = 21, r = 13,
`θ_i = 2π·i/100`, `φ_j = 2π·j/9`. -/
theorem C5_getLatticeNodes_torus_lattice :
    getLatticeNodes.length = 1010 ∧
      ∀ i j : Nat, i ≤ 100 → j ≤ 9 →
        getLatticeNodes[10 * i + j]? =
          some { x := (21 + 13 * Real.cos (2 * Real.pi * ((i : ℝ) / 100))) *
                        Real.cos (2 * Real.pi * ((j : ℝ) / 9))
                 y := (21 + 13 * Real.cos (2 * Real.pi * ((i : ℝ) / 100))) *
                        Real.sin (2 * Real.pi * ((j : ℝ) / 9))
                 z := 13 * Real.sin (2 * Real.pi * ((i : ℝ) / 100)) } := by
  constructor
  · exact range_flatMap_length 10 latticeNode 101
  · intro i j hi hj
    have hidx : 10 * i + j = i * 10 + j := by ring_nf
    rw [hidx]
    have := range_flatMap_getElem 10 latticeNode 101 i j
      (by omega) (by omega)
    rw [show getLatticeNodes =
          ((List.range 101).flatMap fun i => (List.range 10).map fun j =>
            latticeNode i j) from rfl]
    simpa [latticeNode] using this

/-- Witness for C5 at the concrete pair `(i, j) = (0, 0)`. -/
theorem C5_getLatticeNodes_torus_lattice_witness :
    (0 : Nat) ≤ 100 ∧ (0 : Nat) ≤ 9 ∧
      getLatticeNodes[10 * 0 + 0]? =
        some { x := (21 + 13 * Real.cos (2 * Real.pi * (((0 : Nat) : ℝ) / 100))) *
                      Real.cos (2 * Real.pi * (((0 : Nat) : ℝ) / 9))
               y := (21 + 13 * Real.cos (2 * Real.pi * (((0 : Nat) : ℝ) / 100))) *
                      Real.sin (2 * Real.pi * (((0 : Nat) : ℝ) / 9))
               z := 13 * Real.sin (2 * Real.pi * (((0 : Nat) : ℝ) / 100)) } :=
  ⟨Nat.zero_le 100, Nat.zero_le 9,
    C5_getLatticeNodes_torus_lattice.2 0 0 (Nat.zero_le 100) (Nat.zero_le 9)⟩

/-- The index computation of `sequenceSmash` in
`src/GenomicTactile_Visualizer.js`:
`targetNodeIndex = Number(sequenceInt % BigInt(latticeNodes.length))`. -/
noncomputable def targetNodeIndex (sequenceInt : Nat) : Nat :=
  sequenceInt % getLatticeNodes.length

/-- C6: for every non-negative encoded value, `value mod 1010` is a
valid index into the 1010-element lattice: it lies in [0, 1009] and the
lookup succeeds. -/
theorem C6_targetNodeIndex_valid (v : Nat) :
    targetNodeIndex v ≤ 1009 ∧
      (getLatticeNodes[targetNodeIndex v]?).isSome = true := by
  have hlen : getLatticeNodes.length = 1010 :=
    range_flatMap_length 10 latticeNode 101
  have hmod : targetNodeIndex v < 1010 := by
    unfold targetNodeIndex
    rw [hlen]
    exact Nat.mod_lt _ (by norm_num)
  refine ⟨by omega, ?_⟩
  have hlt : targetNodeIndex v < getLatticeNodes.length := by omega
  rw [List.getElem?_eq_getElem hlt]
  rfl

/-- State-passing model of the module-level cache
`let latticeNodes = null` of `src/GenomicTactile_Visualizer.js`: a call
reads the cache, computes the node list on a miss, and writes it back. -/
noncomputable def getLatticeNodesCached (cache : Option (List LatticeNode)) :
    List LatticeNode × Option (List LatticeNode) :=
  match cache with
  | some nodes => (nodes, some nodes)
  | none => (getLatticeNodes, some getLatticeNodes)

/-- A cache state reachable in the process: either still unset (`null`) or
holding exactly the computed node list. -/
def ValidCache (cache : Option (List LatticeNode)) : Prop :=
  cache = none ∨ cache = some getLatticeNodes

/-- C7: the lattice point set is memoized and stable: from any reachable
cache state, a call returns exactly the pure recomputation
`getLatticeNodes`, and afterwards the cache holds exactly that sequence, so
every subsequent call (any call order) returns the identical cached
sequence. -/
theorem C7_lattice_cache_stable (cache : Option (List LatticeNode))
    (h : ValidCache cache) :
    (getLatticeNodesCached cache).1 = getLatticeNodes ∧
      (getLatticeNodesCached cache).2 = some getLatticeNodes := by
  rcases h with h | h
  · subst h; exact ⟨rfl, rfl⟩
  · subst h; exact ⟨rfl, rfl⟩

/-- Witness for C7 at the initial (empty) cache state. -/
theorem C7_lattice_cache_stable_witness :
    ValidCache none ∧
      (getLatticeNodesCached none).1 = getLatticeNodes ∧
      (getLatticeNodesCached none).2 = some getLatticeNodes :=
  ⟨Or.inl rfl, C7_lattice_cache_stable none (Or.inl rfl)⟩

/-- One character matches the regex `/[GC]/gi` of `calculateStability`
(`src/GenomicTactile_Visualizer.js`): G or C, either case. -/
def isGC (c : Char) : Bool :=
  c == 'G' || c == 'C' || c == 'g' || c == 'c'

/-- `calculateStability` of `src/GenomicTactile_Visualizer.js`:
`if (!dnaSequence) return 0;` then the count of `/[GC]/gi` matches divided
by the string length.  Division is exact over `ℚ`. -/
def calculateStability (dnaSequence : String) : ℚ :=
  if dnaSequence = "" then 0
  else ((dnaSequence.data.countP isGC : Nat) : ℚ) / ((dnaSequence.data.length : Nat) : ℚ)

/-- C9: the stability of a non-empty DNA sequence is the count of G/C
bases divided by the length; the literal `"AGATTACAGGAT"` has 12 bases,
G/C count 4, and stability exactly `4 / 12 = 1/3`. -/
theorem C9_calculateStability_gc_content :
    (∀ s : String, s ≠ "" →
        calculateStability s =
          ((s.data.countP isGC : Nat) : ℚ) / ((s.data.length : Nat) : ℚ)) ∧
      ("AGATTACAGGAT".data.length = 12 ∧
        "AGATTACAGGAT".data.countP isGC = 4 ∧
        calculateStability "AGATTACAGGAT" = 1 / 3) := by
  refine ⟨fun s hs => ?_, by decide, by decide, ?_⟩
  · rw [calculateStability, if_neg hs]
  · rw [calculateStability, if_neg (by decide)]
    have hc : "AGATTACAGGAT".data.countP isGC = 4 := by decide
    have hl : "AGATTACAGGAT".data.length = 12 := by decide
    rw [hc, hl]
    norm_num

/-- Witness for C9 at the concrete non-empty string `"G"`. -/
theorem C9_calculateStability_gc_content_witness :
    ("G" : String) ≠ "" ∧
      calculateStability "G" =
        (("G".data.countP isGC : Nat) : ℚ) / (("G".data.length : Nat) : ℚ) :=
  ⟨by decide, C9_calculateStability_gc_content.1 "G" (by decide)⟩

/-- C10: `calculateStability` is total and bounded: for every input
string, including the empty string, the result lies in `[0, 1]` (the empty
string returns 0 through the explicit guard, so the division never divides
by zero, and the G/C count never exceeds the length). -/
theorem C10_calculateStability_bounded (s : String) :
    0 ≤ calculateStability s ∧ calculateStability s ≤ 1 := by
  unfold calculateStability
  by_cases hs : s = ""
  · rw [if_pos hs]
    norm_num
  · rw [if_neg hs]
    have hdata : s.data ≠ [] := by
      intro hd
      apply hs
      cases s with
      | mk l =>
          simp only [String.data] at hd
          subst hd
          rfl
    have hlen : 0 < s.data.length := List.length_pos.mpr hdata
    have hcount : s.data.countP isGC ≤ s.data.length := List.countP_le_length _
    have hlenQ : (0 : ℚ) < ((s.data.length : Nat) : ℚ) := by exact_mod_cast hlen
    constructor
    · positivity
    · rw [div_le_one hlenQ]
      exact_mod_cast hcount
